import Mathlib

/-!
Verification development for the `pewpi-shared` integration core of
`infinity-brain-034`: the `IntegrationListener` event bus
(`src/pewpi-shared/ui/ui-shim.js`) and the `MachinesAdapter` state-machine /
adapter layer (`src/pewpi-shared/machines/adapter.js`).

The JavaScript code is shallowly embedded:

* JS `Map` objects are association lists preserving insertion order (`Map.set`
  on a fresh key appends, on an existing key overwrites in place, `Map.delete`
  removes the entry); plain objects used as dictionaries are association lists
  with unique keys.
* Generated identifiers (`lst_...`, `evt_...`) are modelled as fresh natural
  numbers drawn from counters in the state; `Date.now()` is modelled by a
  `now` field supplied by the environment.
* Opaque JS values (event `data`, context values, adapter payloads) are a type
  parameter `V`.
* `async` handlers and adapter operations are modelled as pure functions of the
  state; a thrown JS value is an `Except` error.  Event handlers are modelled
  syntactically (`HProg`): a handler may re-enter `emit`, branch on observable
  state, complete normally, or throw, which covers the behaviors the dispatcher
  can distinguish.
* `Array.prototype.sort` with comparator `(a, b) => b.priority - a.priority`
  is, per the ECMAScript specification, a stable sort consistent with that
  comparator; it is modelled by `List.insertionSort` with the corresponding
  total preorder.
-/

namespace Pewpi

/-- Lookup in a JS object / `Map` modelled as an association list: the value at
the first matching key. -/
def alookup {V : Type} (l : List (String × V)) (k : String) : Option V :=
  match l.find? (fun kv => kv.1 == k) with
  | some kv => some kv.2
  | none => none

/-- JS `Map.set` semantics: overwrite in place when the key is present,
append otherwise. -/
def aset {V : Type} (l : List (String × V)) (k : String) (v : V) :
    List (String × V) :=
  if (l.find? (fun kv => kv.1 == k)).isSome then
    l.map (fun kv => if kv.1 == k then (k, v) else kv)
  else
    l ++ [(k, v)]

/-- JS object spread `{...a, ...b}`: keys of `a` keep their position with the
value overwritten by `b` on collision, new keys of `b` are appended in order. -/
def jsMerge {V : Type} (a b : List (String × V)) : List (String × V) :=
  a.map (fun kv => (kv.1, (alookup b kv.1).getD kv.2)) ++
    b.filter (fun kv => (alookup a kv.1).isNone)

/-- JS `Array.prototype.slice` restricted to a single start argument: a
negative start counts from the end (clamped at 0), a non-negative start drops
that many elements.  Note `-0` is not negative. -/
def jsSlice {α : Type} (l : List α) (start : Int) : List α :=
  if start < 0 then l.drop ((l.length + start).toNat) else l.drop start.toNat

/-- A thrown JS value: either a framework `new Error(msg)` or an arbitrary
value `raw e` thrown by user code (a handler or an adapter implementation). -/
inductive JErr (V : Type) where
  | err (msg : String)
  | raw (e : V)
deriving Repr, DecidableEq

/-! ## MachinesAdapter (`src/pewpi-shared/machines/adapter.js`) -/

/-- A registered state machine, as built by `MachinesAdapter.registerMachine`.
`transitions` maps a state name to a map from event name to destination state
name; `context` is the machine's open key/value context. -/
structure Machine (V : Type) where
  id : String
  mtype : String
  state : String
  states : List (String × V)
  transitions : List (String × List (String × String))
  context : List (String × V)
  createdAt : Nat
  updatedAt : Nat
deriving Repr, DecidableEq

/-- The `config` argument of `registerMachine`; `none` fields are absent keys
and fall back to the documented defaults. -/
structure MachineConfig (V : Type) where
  mtype : Option String
  initialState : Option String
  states : Option (List (String × V))
  transitions : Option (List (String × List (String × String)))
  context : Option (List (String × V))
deriving Repr, DecidableEq

/-- The object returned by `MachinesAdapter.transition`.  JS field `from` is
`srcState` and `to` is `dstState` (`from` is a Lean keyword); the failure
result carries no `context` key, modelled by `none`. -/
structure TransResult (V : Type) where
  success : Bool
  srcState : String
  dstState : String
  event : String
  context : Option (List (String × V))
deriving Repr, DecidableEq

/-- An adapter implementation: the outcomes of its `connect`, `send` and
`receive` operations, each of which may throw an arbitrary JS value. -/
structure Adapter (V : Type) where
  connectR : V → Except (JErr V) Unit
  sendR : V → Except (JErr V) V
  receiveR : Unit → Except (JErr V) V

/-- A record of which underlying adapter operations were invoked during one
`MachinesAdapter` call (instrumentation for the "no network call / no retry"
properties). -/
inductive OpCall where
  | connect (atype : String)
  | send (atype : String)
  | recv (atype : String)
deriving Repr, DecidableEq

/-- The state of a `MachinesAdapter` instance. -/
structure AState (V : Type) where
  inited : Bool
  machines : List (String × Machine V)
  adapters : List (String × Adapter V)

/-- `MachinesAdapter.registerMachine(machineId, config)`. -/
def registerMachineM {V : Type} (st : AState V) (now : Nat) (mid : String)
    (cfg : MachineConfig V) : Except (JErr V) (AState V × Machine V) :=
  if !st.inited then .error (.err "MachinesAdapter not initialized") else
  let m : Machine V :=
    { id := mid
      mtype := cfg.mtype.getD "generic"
      state := cfg.initialState.getD "idle"
      states := cfg.states.getD []
      transitions := cfg.transitions.getD []
      context := cfg.context.getD []
      createdAt := now
      updatedAt := now }
  .ok ({ st with machines := aset st.machines mid m }, m)

/-- `MachinesAdapter.getMachine(machineId)` (`null` is `none`). -/
def getMachineA {V : Type} (st : AState V) (mid : String) :
    Except (JErr V) (Option (Machine V)) :=
  if !st.inited then .error (.err "MachinesAdapter not initialized") else
  .ok (alookup st.machines mid)

/-- `MachinesAdapter.transition(machineId, event, payload)`.  The JS guard
`if (!transitions[event])` treats both an absent entry and an empty-string
destination (falsy) as "no transition"; the JS guard `if (payload)` skips the
context merge when `payload` is `null` (`none`). -/
def transitionM {V : Type} (st : AState V) (now : Nat) (mid : String)
    (event : String) (payload : Option (List (String × V))) :
    Except (JErr V) (AState V × TransResult V) :=
  if !st.inited then .error (.err "MachinesAdapter not initialized") else
  match alookup st.machines mid with
  | none => .error (.err ("Machine not found: " ++ mid))
  | some m =>
    let cur := m.state
    let row := (alookup m.transitions cur).getD []
    match alookup row event with
    | none =>
      .ok (st, { success := false, srcState := cur, dstState := cur,
                 event := event, context := none })
    | some dst =>
      if dst = "" then
        .ok (st, { success := false, srcState := cur, dstState := cur,
                   event := event, context := none })
      else
        let newCtx := match payload with
          | none => m.context
          | some p => jsMerge m.context p
        let m' := { m with state := dst, updatedAt := now, context := newCtx }
        .ok ({ st with machines := aset st.machines mid m' },
             { success := true, srcState := cur, dstState := dst,
               event := event, context := some newCtx })

/-- The state after one `transition` call (identity when the call throws). -/
def transitionState {V : Type} (st : AState V) (now : Nat) (mid : String)
    (event : String) (payload : Option (List (String × V))) : AState V :=
  match transitionM st now mid event payload with
  | .ok (st', _) => st'
  | .error _ => st

/-- Iterating the same `transition` call `n` times. -/
def transitionIter {V : Type} (now : Nat) (mid : String) (event : String)
    (payload : Option (List (String × V))) : Nat → AState V → AState V
  | 0, st => st
  | n + 1, st => transitionIter now mid event payload n
      (transitionState st now mid event payload)

/-- `MachinesAdapter.getAdapter(adapterType)` (`null` is `none`). -/
def getAdapterA {V : Type} (st : AState V) (atype : String) :
    Except (JErr V) (Option (Adapter V)) :=
  if !st.inited then .error (.err "MachinesAdapter not initialized") else
  .ok (alookup st.adapters atype)

/-- `MachinesAdapter.connect(adapterType, config)`, instrumented with the list
of underlying adapter operations invoked.  On success the method returns
`true`; a failure of the adapter's own `connect` is re-thrown unchanged. -/
def connectA {V : Type} (st : AState V) (atype : String) (cfg : V) :
    Except (JErr V) Bool × List OpCall :=
  if !st.inited then (.error (.err "MachinesAdapter not initialized"), []) else
  match alookup st.adapters atype with
  | none => (.error (.err ("Adapter not found: " ++ atype)), [])
  | some a =>
    match a.connectR cfg with
    | .ok _ => (.ok true, [.connect atype])
    | .error e => (.error e, [.connect atype])

/-- `MachinesAdapter.send(adapterType, data)`, instrumented like `connectA`. -/
def sendA {V : Type} (st : AState V) (atype : String) (data : V) :
    Except (JErr V) V × List OpCall :=
  if !st.inited then (.error (.err "MachinesAdapter not initialized"), []) else
  match alookup st.adapters atype with
  | none => (.error (.err ("Adapter not found: " ++ atype)), [])
  | some a =>
    match a.sendR data with
    | .ok r => (.ok r, [.send atype])
    | .error e => (.error e, [.send atype])

/-- `MachinesAdapter.receive(adapterType)`, instrumented like `connectA`. -/
def receiveA {V : Type} (st : AState V) (atype : String) :
    Except (JErr V) V × List OpCall :=
  if !st.inited then (.error (.err "MachinesAdapter not initialized"), []) else
  match alookup st.adapters atype with
  | none => (.error (.err ("Adapter not found: " ++ atype)), [])
  | some a =>
    match a.receiveR () with
    | .ok r => (.ok r, [.recv atype])
    | .error e => (.error e, [.recv atype])

/-! ## IntegrationListener (`src/pewpi-shared/ui/ui-shim.js`) -/

/-- Syntactic model of an event handler.  A handler can complete normally
(`ret true`), throw (`ret false`), re-enter `emit` (`emitE`) and then
continue, or branch on observable state (`branchQLen n`, comparing the
current event-queue length against `n`), which models a handler closing over
mutable state or inspecting the listener. -/
inductive HProg (V : Type) where
  | ret (ok : Bool)
  | emitE (etype : String) (data : V) (k : HProg V)
  | branchQLen (n : Nat) (thn els : HProg V)
deriving Repr, DecidableEq

/-- A handler program that never re-enters `emit`. -/
def HProg.noEmit {V : Type} : HProg V → Bool
  | .ret _ => true
  | .emitE _ _ _ => false
  | .branchQLen _ t e => t.noEmit && e.noEmit

/-- A handler program that completes without throwing on every path. -/
def HProg.alwaysOk {V : Type} : HProg V → Bool
  | .ret b => b
  | .emitE _ _ k => k.alwaysOk
  | .branchQLen _ t e => t.alwaysOk && e.alwaysOk

/-- A registered subscription (`listener` object built by
`IntegrationListener.on`): generated id, handler, `once` flag, priority and
creation time. -/
structure Subscription (V : Type) where
  id : Nat
  prog : HProg V
  once : Bool
  priority : Int
  createdAt : Nat
deriving Repr, DecidableEq

/-- The ordering used by `emit`'s sort comparator
`(a, b) => b.priority - a.priority`: `a` may come before `b` iff
`b.priority ≤ a.priority` (descending priority). -/
def subGE {V : Type} (a b : Subscription V) : Prop :=
  b.priority ≤ a.priority

instance {V : Type} : DecidableRel (@subGE V) :=
  fun a b => Int.decLe b.priority a.priority

instance {V : Type} : IsTotal (Subscription V) (@subGE V) :=
  ⟨fun a b => le_total b.priority a.priority⟩

instance {V : Type} : IsTrans (Subscription V) (@subGE V) :=
  ⟨fun _ _ _ hab hbc => le_trans hbc hab⟩

/-- An emitted event record (`{type, data, timestamp, id}`); the generated
string id is modelled by a fresh natural number. -/
structure Event (V : Type) where
  id : Nat
  etype : String
  data : V
  timestamp : Nat
deriving Repr, DecidableEq

/-- The state of an `IntegrationListener` instance.  `listeners` is the outer
`Map` from event type to the inner `Map` of subscriptions (an insertion-ordered
association list whose keys are the subscription ids). -/
structure LState (V : Type) where
  inited : Bool
  listeners : List (String × List (Subscription V))
  eventQueue : List (Event V)
  maxQueueSize : Nat
  nextListenerId : Nat
  nextEventId : Nat
  now : Nat
deriving Repr, DecidableEq

/-- `new IntegrationListener()`: empty registry and queue, capacity 1000,
not yet initialized. -/
def newListener (V : Type) (now : Nat) : LState V :=
  { inited := false
    listeners := []
    eventQueue := []
    maxQueueSize := 1000
    nextListenerId := 0
    nextEventId := 0
    now := now }

/-- `IntegrationListener.init()` (cannot fail). -/
def initListener {V : Type} (st : LState V) : LState V :=
  { st with inited := true }

/-- The subscription list registered for `evt` (empty when the event type has
no entry). -/
def lookupSubs {V : Type} (reg : List (String × List (Subscription V))) (evt : String) :
    List (Subscription V) :=
  match reg.find? (fun kv => kv.1 == evt) with
  | some kv => kv.2
  | none => []

/-- Whether the outer registry `Map` has an entry for `evt`. -/
def hasBucket {V : Type} (reg : List (String × List (Subscription V))) (evt : String) :
    Bool :=
  (reg.find? (fun kv => kv.1 == evt)).isSome

/-- `IntegrationListener.on(eventType, handler, options)`: creates the bucket
if absent, then appends a fresh subscription; returns its id. -/
def onL {V : Type} (st : LState V) (etype : String) (prog : HProg V)
    (once : Bool) (priority : Int) : Except (JErr V) (LState V × Nat) :=
  if !st.inited then .error (.err "IntegrationListener not initialized") else
  let lid := st.nextListenerId
  let reg0 := if hasBucket st.listeners etype then st.listeners
              else st.listeners ++ [(etype, [])]
  let sub : Subscription V :=
    { id := lid, prog := prog, once := once, priority := priority,
      createdAt := st.now }
  let reg1 := reg0.map (fun kv => if kv.1 == etype then (kv.1, kv.2 ++ [sub])
                                  else kv)
  .ok ({ st with listeners := reg1, nextListenerId := lid + 1 }, lid)

/-- `IntegrationListener.off(eventType, listenerId)`: deletes the subscription
from the inner map (the bucket itself is kept, even when it becomes empty);
returns whether something was removed. -/
def offL {V : Type} (st : LState V) (etype : String) (lid : Nat) :
    Except (JErr V) (LState V × Bool) :=
  if !st.inited then .error (.err "IntegrationListener not initialized") else
  match st.listeners.find? (fun kv => kv.1 == etype) with
  | none => .ok (st, false)
  | some kv =>
    let removed := kv.2.any (fun s => s.id == lid)
    .ok ({ st with listeners :=
             st.listeners.map (fun kv2 =>
               if kv2.1 == etype then
                 (kv2.1, kv2.2.filter (fun s => !(s.id == lid)))
               else kv2) },
         removed)

/-- `IntegrationListener.removeAllListeners(eventType?)`: with a truthy type,
deletes that bucket; with `undefined` (or the falsy `""`), clears the whole
registry. -/
def removeAllL {V : Type} (st : LState V) (etype : Option String) :
    Except (JErr V) (LState V) :=
  if !st.inited then .error (.err "IntegrationListener not initialized") else
  match etype with
  | some e =>
    if e = "" then .ok { st with listeners := [] }
    else .ok { st with listeners := st.listeners.filter (fun kv => !(kv.1 == e)) }
  | none => .ok { st with listeners := [] }

/-- `IntegrationListener.getEventTypes()`: the keys of the outer registry. -/
def getEventTypesL {V : Type} (st : LState V) : Except (JErr V) (List String) :=
  if !st.inited then .error (.err "IntegrationListener not initialized") else
  .ok (st.listeners.map Prod.fst)

/-- `IntegrationListener.listenerCount(eventType)`. -/
def listenerCountL {V : Type} (st : LState V) (etype : String) :
    Except (JErr V) Nat :=
  if !st.inited then .error (.err "IntegrationListener not initialized") else
  .ok (lookupSubs st.listeners etype).length

/-- `IntegrationListener.getRecentEvents(limit)` is
`this.eventQueue.slice(-limit)`. -/
def getRecentEventsL {V : Type} (st : LState V) (limit : Nat) :
    Except (JErr V) (List (Event V)) :=
  if !st.inited then .error (.err "IntegrationListener not initialized") else
  .ok (jsSlice st.eventQueue (-(limit : Int)))

/-- `IntegrationListener.clearQueue()`. -/
def clearQueueL {V : Type} (st : LState V) : Except (JErr V) (LState V) :=
  if !st.inited then .error (.err "IntegrationListener not initialized") else
  .ok { st with eventQueue := [] }

/-- `IntegrationListener._addToQueue(event)`: push, then shift the oldest
element if the length now exceeds the capacity. -/
def addToQueue {V : Type} (maxQ : Nat) (q : List (Event V)) (e : Event V) :
    List (Event V) :=
  let q' := q ++ [e]
  if maxQ < q'.length then q'.tail else q'

/-- The event record `emit` builds from the state's counters and clock. -/
def mkEvent {V : Type} (st : LState V) (etype : String) (data : V) : Event V :=
  { id := st.nextEventId, etype := etype, data := data, timestamp := st.now }

/-- Deleting the listeners collected in `toRemove` from the bucket of `evt`
(the trailing removal loop of `emit`). -/
def removeSubs {V : Type} (st : LState V) (evt : String) (toRemove : List Nat) :
    LState V :=
  { st with listeners :=
      st.listeners.map (fun kv =>
        if kv.1 == evt then
          (kv.1, kv.2.filter (fun s => !(toRemove.contains s.id)))
        else kv) }

/-- Errors an emission can produce in the model: the instance was not
initialized, or the re-entrancy fuel ran out (a diverging handler cascade). -/
inductive EmitErr where
  | notInited
  | fuel
deriving Repr, DecidableEq

/-- Runs one handler program, given the semantics `emitL` of a nested `emit`
call.  Returns the final state, whether the handler completed without
throwing, and the chronological invocation trace produced by its nested
emissions. -/
def runProgGiven {V : Type}
    (emitL : LState V → String → V →
      Except EmitErr (LState V × Nat × List (Subscription V × Bool) × List (Subscription V × Bool))) :
    HProg V → LState V → Except EmitErr (LState V × Bool × List (Subscription V × Bool))
  | .ret ok, st => .ok (st, ok, [])
  | .emitE etype data k, st =>
    match emitL st etype data with
    | .error e => .error e
    | .ok (st1, _, _, all) =>
      match runProgGiven emitL k st1 with
      | .error e => .error e
      | .ok (st2, ok, invs) => .ok (st2, ok, all ++ invs)
  | .branchQLen n thn els, st =>
    if n < st.eventQueue.length then runProgGiven emitL thn st
    else runProgGiven emitL els st

/-- The dispatch loop of `emit` over the sorted snapshot: runs each handler in
a `try`/`catch`, counts successful invocations, collects the `once` ids to
remove, and records both the top-level trace (`top`, one entry per snapshot
subscription, in invocation order, tagged with whether it completed) and the
full chronological trace (`all`, including invocations made by nested
emissions). -/
def runLoopGiven {V : Type}
    (runP : HProg V → LState V →
      Except EmitErr (LState V × Bool × List (Subscription V × Bool))) :
    List (Subscription V) → LState V →
    Except EmitErr
      (LState V × Nat × List (Subscription V × Bool) × List (Subscription V × Bool) × List Nat)
  | [], st => .ok (st, 0, [], [], [])
  | s :: rest, st =>
    match runP s.prog st with
    | .error e => .error e
    | .ok (st1, ok, invs) =>
      match runLoopGiven runP rest st1 with
      | .error e => .error e
      | .ok (st2, n, top, all, rem) =>
        .ok (st2, (if ok then 1 else 0) + n, (s, ok) :: top,
             ((s, ok) :: invs) ++ all,
             (if ok && s.once then [s.id] else []) ++ rem)

/-- `IntegrationListener.emit(eventType, data)`, with a fuel bound on the
re-entrant emission depth.  Returns the final state, the notified count
(`emit`'s return value), the top-level trace and the full chronological
trace. -/
def emitFuel {V : Type} :
    Nat → LState V → String → V →
    Except EmitErr (LState V × Nat × List (Subscription V × Bool) × List (Subscription V × Bool))
  | 0, _, _, _ => .error .fuel
  | fuel + 1, st, etype, data =>
    if !st.inited then .error .notInited else
    let ev := mkEvent st etype data
    let st1 := { st with
      eventQueue := addToQueue st.maxQueueSize st.eventQueue ev,
      nextEventId := st.nextEventId + 1 }
    match st1.listeners.find? (fun kv => kv.1 == etype) with
    | none => .ok (st1, 0, [], [])
    | some kv =>
      if kv.2.isEmpty then .ok (st1, 0, [], [])
      else
        match runLoopGiven (runProgGiven (emitFuel fuel))
            (List.insertionSort subGE kv.2) st1 with
        | .error e => .error e
        | .ok (st2, n, top, all, rem) =>
          .ok (removeSubs st2 etype rem, n, top, all)

/-- A sequence of top-level `emit` calls, accumulating the full chronological
invocation trace. -/
def emitSeq {V : Type} (fuel : Nat) :
    LState V → List (String × V) →
    Except EmitErr (LState V × List (Subscription V × Bool))
  | st, [] => .ok (st, [])
  | st, (etype, data) :: rest =>
    match emitFuel fuel st etype data with
    | .error e => .error e
    | .ok (st1, _, _, all) =>
      match emitSeq fuel st1 rest with
      | .error e => .error e
      | .ok (st2, tr) => .ok (st2, all ++ tr)

/-- All subscriptions currently registered, across all event types. -/
def allSubs {V : Type} (st : LState V) : List (Subscription V) :=
  (st.listeners.map Prod.snd).flatten

/-- How many currently registered subscriptions carry the id `i`. -/
def countLive {V : Type} (i : Nat) (st : LState V) : Nat :=
  (allSubs st).countP (fun s => s.id == i)

/-- Every registered handler program is free of re-entrant `emit` calls. -/
def AllNoEmit {V : Type} (st : LState V) : Bool :=
  st.listeners.all (fun kv => kv.2.all (fun s => s.prog.noEmit))

/-- Every registered subscription with id `i` is a `once` subscription whose
handler never throws. -/
def OnceOkAt {V : Type} (i : Nat) (st : LState V) : Bool :=
  st.listeners.all (fun kv => kv.2.all (fun s =>
    !(s.id == i) || (s.once && s.prog.alwaysOk)))

/-- The completion outcome of a handler program that performs no re-entrant
`emit`, evaluated against a fixed state (branches read the event queue). -/
def evalOk {V : Type} (st : LState V) : HProg V → Bool
  | .ret b => b
  | .emitE _ _ k => evalOk st k
  | .branchQLen n thn els =>
    if n < st.eventQueue.length then evalOk st thn else evalOk st els

/-- The state-evolution facts every emission step preserves: the initialized
flag and capacity are untouched, the queue-bound invariant is preserved, and
every event type's subscription list only loses elements. -/
def StepOK {V : Type} (st st' : LState V) : Prop :=
  st'.inited = st.inited ∧
  st'.maxQueueSize = st.maxQueueSize ∧
  (st.eventQueue.length ≤ st.maxQueueSize →
    st'.eventQueue.length ≤ st'.maxQueueSize) ∧
  ∀ evt, (lookupSubs st'.listeners evt).Sublist (lookupSubs st.listeners evt)

/-! ## Concrete scenarios used by witnesses and counterexamples -/

/-- Demo subscription: priority 0, registered first, handler throws. -/
def w1 : Subscription Unit :=
  { id := 1, prog := .ret false, once := false, priority := 0, createdAt := 0 }

/-- Demo subscription: priority 0, registered second, handler succeeds. -/
def w2 : Subscription Unit :=
  { id := 2, prog := .ret true, once := false, priority := 0, createdAt := 0 }

/-- Demo subscription: priority 5, registered third, handler succeeds. -/
def w3 : Subscription Unit :=
  { id := 3, prog := .ret true, once := false, priority := 5, createdAt := 0 }

/-- An initialized listener with three subscriptions on `"e"`. -/
def demoListener : LState Unit :=
  { inited := true, listeners := [("e", [w1, w2, w3])], eventQueue := [],
    maxQueueSize := 1000, nextListenerId := 4, nextEventId := 0, now := 0 }

/-- A well-behaved `once` subscription (no re-entry, never throws). -/
def wOnceSub : Subscription Unit :=
  { id := 1, prog := .ret true, once := true, priority := 0, createdAt := 0 }

/-- An initialized listener holding only `wOnceSub` on `"e"`. -/
def wOnceState : LState Unit :=
  { inited := true, listeners := [("e", [wOnceSub])], eventQueue := [],
    maxQueueSize := 1000, nextListenerId := 2, nextEventId := 0, now := 0 }

/-- A `once` subscription whose handler re-enters `emit "e"` on its first
invocation (the queue is still short) and returns immediately afterwards:
the JS analogue is a handler with a closure counter that re-emits once. -/
def c2ReSub : Subscription Unit :=
  { id := 1, prog := .branchQLen 1 (.ret true) (.emitE "e" () (.ret true)),
    once := true, priority := 0, createdAt := 0 }

/-- An initialized listener holding only the re-entrant `once` subscription. -/
def c2ReState : LState Unit :=
  { inited := true, listeners := [("e", [c2ReSub])], eventQueue := [],
    maxQueueSize := 1000, nextListenerId := 2, nextEventId := 0, now := 0 }

/-- A machine whose transition table maps `(idle, go)` to the empty-string
destination (a present entry whose value is falsy in JS). -/
def c6Machine : Machine Unit :=
  { id := "m", mtype := "generic", state := "idle", states := [],
    transitions := [("idle", [("go", "")])], context := [], createdAt := 0,
    updatedAt := 0 }

/-- An initialized `MachinesAdapter` holding only `c6Machine`. -/
def c6AState : AState Unit :=
  { inited := true, machines := [("m", c6Machine)], adapters := [] }

/-- A machine with a realistic entry `(idle, go) ↦ "run"` and one context
key. -/
def wMachine : Machine Nat :=
  { id := "m", mtype := "generic", state := "idle", states := [],
    transitions := [("idle", [("go", "run")])], context := [("old", 1)],
    createdAt := 0, updatedAt := 0 }

/-- An initialized `MachinesAdapter` holding only `wMachine`. -/
def wAState : AState Nat :=
  { inited := true, machines := [("m", wMachine)], adapters := [] }

/-- A machine resting in a terminal state `"done"` with no outbound rows. -/
def w7Machine : Machine Nat :=
  { id := "m", mtype := "generic", state := "done", states := [],
    transitions := [("idle", [("go", "done")])], context := [("old", 1)],
    createdAt := 0, updatedAt := 0 }

/-- An initialized `MachinesAdapter` holding only `w7Machine`. -/
def w7AState : AState Nat :=
  { inited := true, machines := [("m", w7Machine)], adapters := [] }

/-- An adapter whose every operation fails by throwing the raw value `7`. -/
def wAdapter : Adapter Nat :=
  { connectR := fun _ => .error (.raw 7), sendR := fun _ => .error (.raw 7),
    receiveR := fun _ => .error (.raw 7) }

/-- An initialized `MachinesAdapter` with `wAdapter` registered under
`"w"` and nothing registered under `"x"`. -/
def w9AState : AState Nat :=
  { inited := true, machines := [], adapters := [("w", wAdapter)] }

/-- The listener state right after `on("e", handler)` on a fresh instance. -/
def c8OnState : LState Unit :=
  { inited := true,
    listeners := [("e",
      [{ id := 0, prog := .ret true, once := false, priority := 0,
         createdAt := 0 }])],
    eventQueue := [], maxQueueSize := 1000, nextListenerId := 1,
    nextEventId := 0, now := 0 }

/-- The listener state after additionally calling `off("e", 0)`: the bucket
for `"e"` is kept although it is now empty. -/
def c8OffState : LState Unit :=
  { inited := true, listeners := [("e", [])], eventQueue := [],
    maxQueueSize := 1000, nextListenerId := 1, nextEventId := 0, now := 0 }

/-- An initialized listener whose history holds three events. -/
def wQState : LState Unit :=
  { inited := true, listeners := [],
    eventQueue :=
      [{ id := 0, etype := "e", data := (), timestamp := 0 },
       { id := 1, etype := "e", data := (), timestamp := 0 },
       { id := 2, etype := "e", data := (), timestamp := 0 }],
    maxQueueSize := 1000, nextListenerId := 0, nextEventId := 3, now := 0 }

/-! ## Lookup and merge lemmas -/

theorem alookup_nil {V : Type} (k : String) : alookup ([] : List (String × V)) k = none := rfl

theorem alookup_cons {V : Type} (k' : String) (v : V) (l : List (String × V))
    (k : String) :
    alookup ((k', v) :: l) k = if k' == k then some v else alookup l k := by
  simp only [alookup, List.find?_cons]
  cases h : (k' == k) <;> simp [h]

theorem alookup_append {V : Type} (l1 l2 : List (String × V)) (k : String) :
    alookup (l1 ++ l2) k = ((alookup l1 k).orElse (fun _ => alookup l2 k)) := by
  induction l1 with
  | nil => simp [alookup_nil, Option.orElse]
  | cons kv l ih =>
    obtain ⟨k', v⟩ := kv
    rw [List.cons_append, alookup_cons, alookup_cons]
    cases h : (k' == k) <;> simp [h, ih, Option.orElse]

theorem alookup_mapMerge {V : Type} (a b : List (String × V)) (k : String) :
    alookup (a.map (fun kv => (kv.1, (alookup b kv.1).getD kv.2))) k
      = (alookup a k).map (fun v => (alookup b k).getD v) := by
  induction a with
  | nil => simp [alookup_nil]
  | cons kv a ih =>
    obtain ⟨k', v⟩ := kv
    rw [List.map_cons, alookup_cons, alookup_cons]
    cases h : (k' == k)
    · simp [h, ih]
    · have : k' = k := by simpa using h
      subst this
      simp

theorem alookup_filter_of_none {V : Type} (a b : List (String × V)) (k : String)
    (h : alookup a k = none) :
    alookup (b.filter (fun kv => (alookup a kv.1).isNone)) k = alookup b k := by
  induction b with
  | nil => simp
  | cons kv b ih =>
    obtain ⟨k', v⟩ := kv
    rw [List.filter_cons]
    cases hk : (k' == k)
    · cases hkeep : (alookup a k').isNone <;>
        simp [hkeep, alookup_cons, hk, ih]
    · have : k' = k := by simpa using hk
      subst this
      simp [h, alookup_cons]

/-- Lookup in a JS spread `{...a, ...b}` sees `b`'s value on collision and
falls back to `a` (last writer wins). -/
theorem alookup_jsMerge {V : Type} (a b : List (String × V)) (k : String) :
    alookup (jsMerge a b) k = ((alookup b k).orElse (fun _ => alookup a k)) := by
  rw [jsMerge, alookup_append, alookup_mapMerge]
  cases ha : alookup a k with
  | some v => cases hb : alookup b k <;> simp [hb, Option.orElse]
  | none =>
    rw [alookup_filter_of_none a b k ha]
    cases hb : alookup b k <;> simp [hb, Option.orElse]

/-! ## Stability of the dispatch sort -/

theorem filter_orderedInsert {V : Type} (p : Int) (a : Subscription V)
    (l : List (Subscription V)) :
    (List.orderedInsert subGE a l).filter (fun s => s.priority == p)
      = if a.priority == p
        then a :: l.filter (fun s => s.priority == p)
        else l.filter (fun s => s.priority == p) := by
  induction l with
  | nil =>
    cases hpa : (a.priority == p) <;>
      simp [List.orderedInsert, List.filter_cons, hpa]
  | cons b l ih =>
    rw [List.orderedInsert]
    by_cases hab : subGE a b
    · rw [if_pos hab, List.filter_cons, List.filter_cons]
    · rw [if_neg hab, List.filter_cons, List.filter_cons, ih]
      by_cases hpa : a.priority = p
      · by_cases hpb : b.priority = p
        · exact absurd (by simp [subGE, hpa, hpb] : subGE a b) hab
        · simp [hpa, hpb]
      · by_cases hpb : b.priority = p <;> simp [hpa, hpb]

theorem filter_insertionSort {V : Type} (p : Int) (l : List (Subscription V)) :
    (List.insertionSort subGE l).filter (fun s => s.priority == p)
      = l.filter (fun s => s.priority == p) := by
  induction l with
  | nil => rfl
  | cons a l ih =>
    rw [List.insertionSort, filter_orderedInsert, List.filter_cons]
    cases hpa : (a.priority == p) <;> simp [hpa, ih]

/-! ## Structure of the dispatch loop -/

theorem runLoopGiven_spec {V : Type}
    (runP : HProg V → LState V →
      Except EmitErr (LState V × Bool × List (Subscription V × Bool)))
    (l : List (Subscription V)) (st st' : LState V) (n : Nat)
    (top all : List (Subscription V × Bool)) (rem : List Nat)
    (h : runLoopGiven runP l st = .ok (st', n, top, all, rem)) :
    top.map Prod.fst = l ∧
    n = top.countP (fun en => en.2) ∧
    rem = (top.filter (fun en => en.2 && en.1.once)).map (fun en => en.1.id) := by
  induction l generalizing st st' n top all rem with
  | nil =>
    simp only [runLoopGiven, Except.ok.injEq, Prod.mk.injEq] at h
    obtain ⟨rfl, rfl, rfl, rfl, rfl⟩ := h
    simp
  | cons s rest ih =>
    simp only [runLoopGiven] at h
    split at h
    · simp at h
    · rename_i st1 ok invs hp
      split at h
      · simp at h
      · rename_i st2 n2 top2 all2 rem2 hl
        simp only [Except.ok.injEq, Prod.mk.injEq] at h
        obtain ⟨rfl, rfl, rfl, rfl, rfl⟩ := h
        obtain ⟨hm, hc, hr⟩ := ih st1 st2 n2 top2 all2 rem2 hl
        refine ⟨by simp [hm], ?_, ?_⟩
        · rw [List.countP_cons]
          cases ok
          · simpa using hc
          · simp only [if_true, ite_true]
            omega
        · rw [List.filter_cons]
          cases hok : (ok && s.once) <;> simp [hok, hr]

/-! ## Registry lemmas -/

theorem lookupSubs_cons {V : Type} (k : String) (subs : List (Subscription V))
    (reg : List (String × List (Subscription V))) (evt : String) :
    lookupSubs ((k, subs) :: reg) evt
      = if k == evt then subs else lookupSubs reg evt := by
  simp only [lookupSubs, List.find?_cons]
  cases h : (k == evt) <;> simp [h]

theorem lookupSubs_of_find? {V : Type} (reg : List (String × List (Subscription V)))
    (evt : String) (kv : String × List (Subscription V))
    (h : reg.find? (fun kv => kv.1 == evt) = some kv) :
    lookupSubs reg evt = kv.2 := by
  simp [lookupSubs, h]

theorem lookupSubs_of_find?_none {V : Type}
    (reg : List (String × List (Subscription V))) (evt : String)
    (h : reg.find? (fun kv => kv.1 == evt) = none) :
    lookupSubs reg evt = [] := by
  simp [lookupSubs, h]

/-- Effect of mapping a filter over the bucket of one event type (the shape of
both `off` and the `once` removal pass of `emit`) on every lookup. -/
theorem lookupSubs_filterModify {V : Type}
    (reg : List (String × List (Subscription V))) (evt : String)
    (pr : Subscription V → Bool) (evt' : String) :
    lookupSubs
      (reg.map (fun kv => if kv.1 == evt then (kv.1, kv.2.filter pr) else kv))
      evt'
      = if evt' = evt then (lookupSubs reg evt).filter pr
        else lookupSubs reg evt' := by
  induction reg with
  | nil => by_cases h : evt' = evt <;> simp [lookupSubs, h]
  | cons kv reg ih =>
    obtain ⟨k, subs⟩ := kv
    rw [List.map_cons]
    by_cases hke : k = evt <;> by_cases h' : k = evt'
    · subst hke
      subst h'
      simp [lookupSubs_cons]
    · subst hke
      have h'' : ¬evt' = k := fun h => h' h.symm
      have hb0 : (k == k) = true := by simp
      have hb2 : (k == evt') = false := by simp [h']
      simp only [hb0, hb2, if_true, ite_true, Bool.false_eq_true, if_false,
        ite_false, lookupSubs_cons, if_neg h'']
      simpa [h''] using ih
    · subst h'
      have hke' : ¬(k = evt) := hke
      have hb1 : (k == evt) = false := by simp [hke]
      simp only [hb1, Bool.false_eq_true, if_false, ite_false, lookupSubs_cons,
        beq_self_eq_true, if_true, ite_true, if_neg hke']
    · have h'' : ¬evt' = k := fun h => h' h.symm
      have hb1 : (k == evt) = false := by simp [hke]
      have hb2 : (k == evt') = false := by simp [h']
      simp only [hb1, hb2, Bool.false_eq_true, if_false, ite_false,
        lookupSubs_cons]
      simpa using ih

theorem lookupSubs_removeSubs {V : Type} (st : LState V) (evt : String)
    (rem : List Nat) (evt' : String) :
    lookupSubs (removeSubs st evt rem).listeners evt'
      = if evt' = evt
        then (lookupSubs st.listeners evt).filter (fun s => !(rem.contains s.id))
        else lookupSubs st.listeners evt' := by
  exact lookupSubs_filterModify st.listeners evt (fun s => !(rem.contains s.id))
    evt'

/-! ## Step lemmas for the emission interpreter -/

theorem addToQueue_length_le {V : Type} (cap : Nat) (q : List (Event V))
    (e : Event V) (h : q.length ≤ cap) :
    (addToQueue cap q e).length ≤ cap := by
  simp only [addToQueue]
  split
  · rename_i hlt
    simp only [List.length_append, List.length_cons, List.length_nil] at hlt
    simp only [List.length_tail, List.length_append, List.length_cons,
      List.length_nil]
    omega
  · rename_i hlt
    simp only [List.length_append, List.length_cons, List.length_nil] at hlt ⊢
    omega

theorem stepOK_refl {V : Type} (st : LState V) : StepOK st st :=
  ⟨Eq.refl _, Eq.refl _, id, fun _ => List.Sublist.refl _⟩

theorem stepOK_trans {V : Type} {st1 st2 st3 : LState V}
    (h1 : StepOK st1 st2) (h2 : StepOK st2 st3) : StepOK st1 st3 := by
  obtain ⟨a1, b1, c1, d1⟩ := h1
  obtain ⟨a2, b2, c2, d2⟩ := h2
  exact ⟨a2.trans a1, b2.trans b1, fun h => c2 (c1 h),
    fun evt => (d2 evt).trans (d1 evt)⟩

theorem stepOK_queuePush {V : Type} (st : LState V) (etype : String) (data : V) :
    StepOK st
      { st with
        eventQueue := addToQueue st.maxQueueSize st.eventQueue
          (mkEvent st etype data),
        nextEventId := st.nextEventId + 1 } := by
  refine ⟨rfl, rfl, ?_, fun _ => List.Sublist.refl _⟩
  exact addToQueue_length_le st.maxQueueSize st.eventQueue _

theorem stepOK_removeSubs {V : Type} (st : LState V) (evt : String)
    (rem : List Nat) : StepOK st (removeSubs st evt rem) := by
  refine ⟨rfl, rfl, id, fun evt' => ?_⟩
  rw [lookupSubs_removeSubs]
  by_cases h : evt' = evt
  · rw [if_pos h, h]
    exact List.filter_sublist _
  · rw [if_neg h]

theorem stepOK_runProgGiven {V : Type}
    (emitL : LState V → String → V →
      Except EmitErr (LState V × Nat × List (Subscription V × Bool) × List (Subscription V × Bool)))
    (hE : ∀ st e d r, emitL st e d = .ok r → StepOK st r.1) :
    ∀ (p : HProg V) (st : LState V) r,
      runProgGiven emitL p st = .ok r → StepOK st r.1 := by
  intro p
  induction p with
  | ret b =>
    intro st r h
    simp only [runProgGiven, Except.ok.injEq] at h
    rw [← h]
    exact stepOK_refl st
  | emitE etype data k ih =>
    intro st r h
    simp only [runProgGiven] at h
    split at h
    · simp at h
    · rename_i st1 n1 top1 all1 hemit
      split at h
      · simp at h
      · rename_i st2 ok invs hk
        simp only [Except.ok.injEq] at h
        have h1 := hE st etype data _ hemit
        have h2 := ih st1 _ hk
        rw [← h]
        exact stepOK_trans h1 h2
  | branchQLen n thn els iht ihe =>
    intro st r h
    simp only [runProgGiven] at h
    split at h
    · exact iht st r h
    · exact ihe st r h

theorem stepOK_runLoopGiven {V : Type}
    (runP : HProg V → LState V →
      Except EmitErr (LState V × Bool × List (Subscription V × Bool)))
    (hP : ∀ p st r, runP p st = .ok r → StepOK st r.1) :
    ∀ (l : List (Subscription V)) (st : LState V) r,
      runLoopGiven runP l st = .ok r → StepOK st r.1 := by
  intro l
  induction l with
  | nil =>
    intro st r h
    simp only [runLoopGiven, Except.ok.injEq] at h
    rw [← h]
    exact stepOK_refl st
  | cons s rest ih =>
    intro st r h
    simp only [runLoopGiven] at h
    split at h
    · simp at h
    · rename_i st1 ok invs hp
      split at h
      · simp at h
      · rename_i st2 n2 top2 all2 rem2 hl
        simp only [Except.ok.injEq] at h
        have h1 := hP s.prog st _ hp
        have h2 := ih st1 _ hl
        rw [← h]
        exact stepOK_trans h1 h2

theorem stepOK_emitFuel {V : Type} :
    ∀ (fuel : Nat) (st : LState V) (etype : String) (data : V) r,
      emitFuel fuel st etype data = .ok r → StepOK st r.1 := by
  intro fuel
  induction fuel with
  | zero => intro st etype data r h; simp [emitFuel] at h
  | succ fuel ih =>
    intro st etype data r h
    simp only [emitFuel] at h
    split at h
    · simp at h
    · split at h
      · simp only [Except.ok.injEq] at h
        rw [← h]
        exact stepOK_queuePush st etype data
      · rename_i kv hfind
        split at h
        · simp only [Except.ok.injEq] at h
          rw [← h]
          exact stepOK_queuePush st etype data
        · split at h
          · simp at h
          · rename_i st2 n top all rem hloop
            simp only [Except.ok.injEq] at h
            have h1 := stepOK_queuePush st etype data
            have h2 := stepOK_runLoopGiven _
              (stepOK_runProgGiven _ (fun st e d r h => ih st e d r h)) _ _ _ hloop
            have h3 := stepOK_removeSubs st2 etype rem
            rw [← h]
            exact stepOK_trans h1 (stepOK_trans h2 h3)

/-! ## Emissions whose handlers do not re-enter `emit` -/

theorem evalOk_of_alwaysOk {V : Type} (st : LState V) (p : HProg V)
    (h : p.alwaysOk = true) : evalOk st p = true := by
  induction p with
  | ret b => simpa [HProg.alwaysOk, evalOk] using h
  | emitE etype data k ih =>
    simp only [HProg.alwaysOk] at h
    simpa [evalOk] using ih h
  | branchQLen n thn els iht ihe =>
    simp only [HProg.alwaysOk, Bool.and_eq_true] at h
    simp only [evalOk]
    split
    · exact iht h.1
    · exact ihe h.2

theorem runProgGiven_noEmit {V : Type}
    (emitL : LState V → String → V →
      Except EmitErr (LState V × Nat × List (Subscription V × Bool) × List (Subscription V × Bool)))
    (p : HProg V) (st : LState V) (h : p.noEmit = true) :
    runProgGiven emitL p st = .ok (st, evalOk st p, []) := by
  induction p with
  | ret b => rfl
  | emitE etype data k ih => simp [HProg.noEmit] at h
  | branchQLen n thn els iht ihe =>
    simp only [HProg.noEmit, Bool.and_eq_true] at h
    simp only [runProgGiven, evalOk]
    split
    · exact iht h.1
    · exact ihe h.2

theorem runLoopGiven_noEmit {V : Type}
    (emitL : LState V → String → V →
      Except EmitErr (LState V × Nat × List (Subscription V × Bool) × List (Subscription V × Bool)))
    (l : List (Subscription V)) (st : LState V)
    (h : ∀ s ∈ l, s.prog.noEmit = true) :
    runLoopGiven (runProgGiven emitL) l st
      = .ok (st,
          (l.map (fun s => (s, evalOk st s.prog))).countP (fun en => en.2),
          l.map (fun s => (s, evalOk st s.prog)),
          l.map (fun s => (s, evalOk st s.prog)),
          ((l.map (fun s => (s, evalOk st s.prog))).filter
            (fun en => en.2 && en.1.once)).map (fun en => en.1.id)) := by
  induction l with
  | nil => rfl
  | cons s rest ih =>
    have hs : s.prog.noEmit = true := h s (by simp)
    have hrest : ∀ s' ∈ rest, s'.prog.noEmit = true :=
      fun s' hs' => h s' (by simp [hs'])
    simp only [runLoopGiven, runProgGiven_noEmit emitL s.prog st hs, ih hrest,
      List.map_cons, List.countP_cons, List.filter_cons]
    cases hok : evalOk st s.prog <;>
      cases honce : s.once <;>
        simp [hok, honce, Nat.add_comm]

/-! ## Counting live subscriptions with a given id -/

theorem countLive_eq {V : Type} (i : Nat) (st : LState V) :
    countLive i st
      = ((st.listeners.map Prod.snd).flatten).countP (fun s => s.id == i) := rfl

theorem countP_id_filter_of_mem {V : Type} (i : Nat) (rem : List Nat)
    (xs : List (Subscription V)) (hi : rem.contains i = true) :
    (xs.filter (fun s => !(rem.contains s.id))).countP (fun s => s.id == i)
      = 0 := by
  rw [List.countP_eq_zero]
  intro s hs
  obtain ⟨_, hkeep⟩ := List.mem_filter.mp hs
  intro hid
  have hsi : s.id = i := by simpa using hid
  rw [hsi] at hkeep
  have hmem : i ∈ rem := by simpa using hi
  simp [hmem] at hkeep

theorem countP_id_filter_of_not_mem {V : Type} (i : Nat) (rem : List Nat)
    (xs : List (Subscription V)) (hi : rem.contains i = false) :
    (xs.filter (fun s => !(rem.contains s.id))).countP (fun s => s.id == i)
      = xs.countP (fun s => s.id == i) := by
  rw [List.countP_filter]
  refine List.countP_congr (fun s _ => ?_)
  simp only [Bool.and_eq_true]
  constructor
  · exact fun h => h.1
  · intro h
    refine ⟨h, ?_⟩
    have hid : s.id = i := by simpa using h
    rw [hid, hi]
    rfl

theorem countReg_filterModify_le {V : Type} (i : Nat)
    (reg : List (String × List (Subscription V))) (evt : String)
    (rem : List Nat) :
    (((reg.map (fun kv => if kv.1 == evt
        then (kv.1, kv.2.filter (fun s => !(rem.contains s.id))) else kv)).map
          Prod.snd).flatten).countP (fun s => s.id == i)
      ≤ ((reg.map Prod.snd).flatten).countP (fun s => s.id == i) := by
  induction reg with
  | nil => simp
  | cons kv reg ih =>
    obtain ⟨k, subs⟩ := kv
    cases hk : (k == evt) <;>
      simp only [List.map_cons, hk, Bool.false_eq_true, if_false, ite_false,
        if_true, ite_true, List.flatten_cons, List.countP_append]
    · omega
    · have := List.Sublist.countP_le (fun s => s.id == i)
        (List.filter_sublist subs (p := fun s => !(rem.contains s.id)))
      omega

theorem countReg_filterModify_of_not_mem {V : Type} (i : Nat)
    (reg : List (String × List (Subscription V))) (evt : String)
    (rem : List Nat) (hi : rem.contains i = false) :
    (((reg.map (fun kv => if kv.1 == evt
        then (kv.1, kv.2.filter (fun s => !(rem.contains s.id))) else kv)).map
          Prod.snd).flatten).countP (fun s => s.id == i)
      = ((reg.map Prod.snd).flatten).countP (fun s => s.id == i) := by
  induction reg with
  | nil => simp
  | cons kv reg ih =>
    obtain ⟨k, subs⟩ := kv
    cases hk : (k == evt) <;>
      simp only [List.map_cons, hk, Bool.false_eq_true, if_false, ite_false,
        if_true, ite_true, List.flatten_cons, List.countP_append, ih]
    rw [countP_id_filter_of_not_mem i rem subs hi]

theorem countReg_filterModify_of_mem {V : Type} (i : Nat)
    (reg : List (String × List (Subscription V))) (evt : String)
    (rem : List Nat) (hi : rem.contains i = true) :
    (((reg.map (fun kv => if kv.1 == evt
        then (kv.1, kv.2.filter (fun s => !(rem.contains s.id))) else kv)).map
          Prod.snd).flatten).countP (fun s => s.id == i)
      + (lookupSubs reg evt).countP (fun s => s.id == i)
      ≤ ((reg.map Prod.snd).flatten).countP (fun s => s.id == i) := by
  induction reg with
  | nil => simp [lookupSubs]
  | cons kv reg ih =>
    obtain ⟨k, subs⟩ := kv
    rw [lookupSubs_cons]
    cases hk : (k == evt) <;>
      simp only [List.map_cons, hk, Bool.false_eq_true, if_false, ite_false,
        if_true, ite_true, List.flatten_cons, List.countP_append]
    · omega
    · have h0 := countP_id_filter_of_mem i rem subs hi
      have hle := countReg_filterModify_le i reg evt rem
      omega

/-! ## Predicate preservation across removal -/

theorem allBuckets_filterModify {V : Type} (P : Subscription V → Bool)
    (reg : List (String × List (Subscription V))) (evt : String)
    (pr : Subscription V → Bool)
    (h : reg.all (fun kv => kv.2.all P) = true) :
    (reg.map (fun kv => if kv.1 == evt then (kv.1, kv.2.filter pr) else kv)).all
      (fun kv => kv.2.all P) = true := by
  rw [List.all_eq_true] at h ⊢
  intro kv hkv
  obtain ⟨kv0, hkv0, rfl⟩ := List.mem_map.mp hkv
  have h0 := h kv0 hkv0
  cases hk : (kv0.1 == evt) <;> simp only [hk, Bool.false_eq_true, if_false,
    ite_false, if_true, ite_true]
  · exact h0
  · rw [List.all_eq_true] at h0 ⊢
    intro s hs
    exact h0 s (List.mem_filter.mp hs).1


/-! ## The history queue as a FIFO ring -/

theorem foldl_addToQueue {V : Type} (cap : Nat) :
    ∀ (es : List (Event V)) (q : List (Event V)), q.length ≤ cap →
      es.foldl (addToQueue cap) q
        = (q ++ es).drop (q.length + es.length - cap) := by
  intro es
  induction es with
  | nil =>
    intro q hq
    simp [Nat.sub_eq_zero_of_le hq]
  | cons e es ih =>
    intro q hq
    rw [List.foldl_cons]
    by_cases hlen : cap < q.length + 1
    · have hstep : addToQueue cap q e = (q ++ [e]).tail := by
        simp only [addToQueue, List.length_append, List.length_cons,
          List.length_nil]
        rw [if_pos (by omega)]
      have htail_len : (q ++ [e]).tail.length ≤ cap := by
        simp only [List.length_tail, List.length_append, List.length_cons,
          List.length_nil]
        omega
      rw [hstep, ih _ htail_len]
      have key : (q ++ [e]).tail ++ es = (q ++ e :: es).drop 1 := by
        rw [List.append_cons q e es,
          List.drop_append_of_le_length
            (by simp : (1 : Nat) ≤ (q ++ [e]).length),
          List.drop_one]
      rw [key, List.drop_drop]
      congr 1
      simp only [List.length_tail, List.length_append, List.length_cons,
        List.length_nil]
      omega
    · have hstep : addToQueue cap q e = q ++ [e] := by
        simp only [addToQueue, List.length_append, List.length_cons,
          List.length_nil]
        rw [if_neg (by omega)]
      rw [hstep, ih _ (by
        simp only [List.length_append, List.length_cons, List.length_nil]
        omega)]
      rw [List.append_cons q e es]
      congr 1
      simp only [List.length_append, List.length_cons, List.length_nil]
      omega

/-! ## Key preservation -/

theorem map_fst_filterModify {V : Type}
    (reg : List (String × List (Subscription V))) (evt : String)
    (pr : Subscription V → Bool) :
    (reg.map (fun kv => if kv.1 == evt then (kv.1, kv.2.filter pr) else kv)).map
        Prod.fst
      = reg.map Prod.fst := by
  induction reg with
  | nil => rfl
  | cons kv reg ih =>
    obtain ⟨k, subs⟩ := kv
    cases hk : (k == evt) <;>
      simp only [List.map_cons, hk, Bool.false_eq_true, if_false, ite_false,
        if_true, ite_true, ih]

/-! ## One emission step of a `once` subscription -/

theorem once_count_key {V : Type} (i : Nat) (etype : String)
    (reg : List (String × List (Subscription V)))
    (subs : List (Subscription V)) (f : Subscription V → Bool)
    (hlk : lookupSubs reg etype = subs)
    (hf : ∀ s ∈ subs, s.id = i → s.once = true ∧ f s = true) :
    (((List.insertionSort subGE subs).map (fun s => (s, f s))).countP
        (fun en => en.1.id == i))
      + (((reg.map (fun kv =>
            if kv.1 == etype
            then (kv.1, kv.2.filter (fun s =>
              !(((((List.insertionSort subGE subs).map
                    (fun s => (s, f s))).filter
                      (fun en => en.2 && en.1.once)).map
                        (fun en => en.1.id)).contains s.id)))
            else kv)).map Prod.snd).flatten).countP (fun s => s.id == i)
      ≤ ((reg.map Prod.snd).flatten).countP (fun s => s.id == i) := by
  set TOP := (List.insertionSort subGE subs).map (fun s => (s, f s)) with hTOP
  set REM := (TOP.filter (fun en => en.2 && en.1.once)).map (fun en => en.1.id)
    with hREM
  have hTOPcount : TOP.countP (fun en => en.1.id == i)
      = subs.countP (fun s => s.id == i) := by
    rw [hTOP, List.countP_map]
    exact (List.perm_insertionSort subGE subs).countP_eq _
  by_cases hc : subs.countP (fun s => s.id == i) = 0
  · have hnotin : REM.contains i = false := by
      cases hcc : REM.contains i
      · rfl
      · exfalso
        have hmem : i ∈ REM := by simpa using hcc
        rw [hREM] at hmem
        obtain ⟨en, henf, henid⟩ := List.mem_map.mp hmem
        obtain ⟨hent, _⟩ := List.mem_filter.mp henf
        rw [hTOP] at hent
        obtain ⟨s0, hs0, rfl⟩ := List.mem_map.mp hent
        have hs0b : s0 ∈ subs := (List.mem_insertionSort subGE).mp hs0
        have hpos : 0 < subs.countP (fun s => s.id == i) :=
          List.countP_pos_iff.mpr ⟨s0, hs0b, by simpa using henid⟩
        omega
    rw [hTOPcount, hc,
      countReg_filterModify_of_not_mem i reg etype REM hnotin]
    omega
  · obtain ⟨s0, hs0mem, hs0id⟩ := List.countP_pos_iff.mp (Nat.pos_of_ne_zero hc)
    have hs0 := hf s0 hs0mem (by simpa using hs0id)
    have hin : REM.contains i = true := by
      have hmem : i ∈ REM := by
        rw [hREM]
        refine List.mem_map.mpr ⟨(s0, f s0), ?_, by simpa using hs0id⟩
        refine List.mem_filter.mpr ⟨?_, by simp [hs0.1, hs0.2]⟩
        rw [hTOP]
        exact List.mem_map.mpr
          ⟨s0, (List.mem_insertionSort subGE).mpr hs0mem, rfl⟩
      simpa using hmem
    have hmain := countReg_filterModify_of_mem i reg etype REM hin
    rw [hlk] at hmain
    rw [hTOPcount]
    omega

theorem emit_once_step {V : Type} (fuel : Nat) (st : LState V) (etype : String)
    (data : V) (st' : LState V) (n : Nat)
    (top all : List (Subscription V × Bool)) (i : Nat)
    (hA : AllNoEmit st = true) (hO : OnceOkAt i st = true)
    (h : emitFuel fuel st etype data = .ok (st', n, top, all)) :
    all.countP (fun en => en.1.id == i) + countLive i st' ≤ countLive i st ∧
    AllNoEmit st' = true ∧ OnceOkAt i st' = true := by
  cases fuel with
  | zero => simp [emitFuel] at h
  | succ fuel =>
    simp only [emitFuel] at h
    split at h
    · simp at h
    · split at h
      · simp only [Except.ok.injEq, Prod.mk.injEq] at h
        obtain ⟨rfl, rfl, rfl, rfl⟩ := h
        exact ⟨by simp [countLive_eq], hA, hO⟩
      · rename_i kv hfind
        split at h
        · simp only [Except.ok.injEq, Prod.mk.injEq] at h
          obtain ⟨rfl, rfl, rfl, rfl⟩ := h
          exact ⟨by simp [countLive_eq], hA, hO⟩
        · have hkvmem : kv ∈ st.listeners := List.mem_of_find?_eq_some hfind
          have hbucket := List.all_eq_true.mp hA kv hkvmem
          have hsorted : ∀ s ∈ List.insertionSort subGE kv.2,
              s.prog.noEmit = true := fun s hs =>
            List.all_eq_true.mp hbucket s ((List.mem_insertionSort subGE).mp hs)
          rw [runLoopGiven_noEmit (emitFuel fuel) _ _ hsorted] at h
          simp only [Except.ok.injEq, Prod.mk.injEq] at h
          obtain ⟨rfl, rfl, rfl, rfl⟩ := h
          set stq : LState V :=
            { st with
              eventQueue := addToQueue st.maxQueueSize st.eventQueue
                (mkEvent st etype data),
              nextEventId := st.nextEventId + 1 } with hstq
          have hfprop : ∀ s ∈ kv.2, s.id = i →
              s.once = true ∧ evalOk stq s.prog = true := by
            intro s hs hid
            have hall := List.all_eq_true.mp
              (List.all_eq_true.mp hO kv hkvmem) s hs
            have hoa : s.once = true ∧ s.prog.alwaysOk = true := by
              simpa [hid] using hall
            exact ⟨hoa.1, evalOk_of_alwaysOk stq s.prog hoa.2⟩
          have hlk : lookupSubs st.listeners etype = kv.2 :=
            lookupSubs_of_find? st.listeners etype kv hfind
          refine ⟨?_, ?_, ?_⟩
          · exact once_count_key i etype st.listeners kv.2
              (fun s => evalOk stq s.prog) hlk hfprop
          · exact allBuckets_filterModify (fun s => s.prog.noEmit)
              st.listeners etype _ hA
          · exact allBuckets_filterModify
              (fun s => !(s.id == i) || (s.once && s.prog.alwaysOk))
              st.listeners etype _ hO

/-- Accumulated form of `emit_once_step` over a sequence of top-level
emissions. -/
theorem emitSeq_once_count {V : Type} (fuel : Nat)
    (calls : List (String × V)) :
    ∀ (st st' : LState V) (tr : List (Subscription V × Bool)) (i : Nat),
      AllNoEmit st = true → OnceOkAt i st = true →
      emitSeq fuel st calls = .ok (st', tr) →
      tr.countP (fun en => en.1.id == i) + countLive i st' ≤ countLive i st := by
  induction calls with
  | nil =>
    intro st st' tr i hA hO h
    simp only [emitSeq, Except.ok.injEq, Prod.mk.injEq] at h
    obtain ⟨rfl, rfl⟩ := h
    simp
  | cons c rest ih =>
    intro st st' tr i hA hO h
    obtain ⟨e, d⟩ := c
    simp only [emitSeq] at h
    split at h
    · simp at h
    · rename_i st1 n1 top1 all1 hstep
      split at h
      · simp at h
      · rename_i st2 tr2 hrest
        simp only [Except.ok.injEq, Prod.mk.injEq] at h
        obtain ⟨rfl, rfl⟩ := h
        obtain ⟨h1, hA1, hO1⟩ :=
          emit_once_step fuel st e d st1 n1 top1 all1 i hA hO hstep
        have h2 := ih st1 st2 tr2 i hA1 hO1 hrest
        rw [List.countP_append]
        omega

/-! ## Claim theorems: MachinesAdapter -/

/-- C6 counterexample: the transition table of `c6Machine` has the entry
`transitions["idle"]["go"] = ""`, yet `transition` reports
`success: false` and leaves the machine untouched, because the JS guard
`if (!transitions[event])` treats the empty-string destination as falsy.
This refutes the claim that every present entry produces a successful
transition. -/
theorem c6_counterexample :
    alookup ((alookup c6Machine.transitions c6Machine.state).getD []) "go"
        = some "" ∧
    transitionM c6AState 1 "m" "go" (some [])
      = .ok (c6AState,
          { success := false, srcState := "idle", dstState := "idle",
            event := "go", context := none }) :=
  ⟨rfl, rfl⟩

/-- C6 (amended): for a registered machine whose transition table has an entry
`transitions[currentState][eventName] = destination` with a **non-empty**
destination, `transition` sets the state to the destination, refreshes
`updatedAt` to the call time, replaces the context by the shallow merge
`{...context, ...payload}`, and returns
`{success: true, from, to, event, context}`; lookups in the merged context
see payload values first (payload keys win on collision). -/
theorem c6_transition_amended (V : Type) (st : AState V) (now : Nat)
    (mid ev : String) (p : List (String × V)) (m : Machine V) (d : String)
    (hinit : st.inited = true)
    (hm : alookup st.machines mid = some m)
    (hd : alookup ((alookup m.transitions m.state).getD []) ev = some d)
    (hne : d ≠ "") :
    transitionM st now mid ev (some p)
      = .ok ({ st with machines := aset st.machines mid { m with state := d, updatedAt := now, context := jsMerge m.context p } },
             { success := true, srcState := m.state, dstState := d,
               event := ev, context := some (jsMerge m.context p) }) ∧
    ∀ k, alookup (jsMerge m.context p) k
          = ((alookup p k).orElse (fun _ => alookup m.context k)) := by
  constructor
  · simp only [transitionM, hinit, Bool.not_true, Bool.false_eq_true,
      if_false, ite_false, hm, hd]
    rw [if_neg hne]
  · intro k
    exact alookup_jsMerge m.context p k

/-- C6 witness: a concrete successful transition `(idle, go) ↦ run` with
payload `{k: 7}`, obtained from `c6_transition_amended`. -/
theorem c6_transition_amended_witness :
    transitionM wAState 5 "m" "go" (some [("k", 7)])
      = .ok ({ wAState with machines := aset wAState.machines "m" { wMachine with state := "run", updatedAt := 5, context := jsMerge wMachine.context [("k", 7)] } },
             { success := true, srcState := wMachine.state, dstState := "run",
               event := "go",
               context := some (jsMerge wMachine.context [("k", 7)]) }) ∧
    alookup (jsMerge wMachine.context [("k", 7)]) "k"
      = ((alookup [("k", 7)] "k").orElse
          (fun _ => alookup wMachine.context "k")) := by
  have h := c6_transition_amended Nat wAState 5 "m" "go" [("k", 7)] wMachine
    "run" rfl rfl rfl (by decide)
  exact ⟨h.1, h.2 "k"⟩

/-- C7: with no entry `transitions[currentState][eventName]`, `transition`
returns `{success: false, from: s, to: s, event}` without throwing, the
machine (state, context, `updatedAt`) is entirely unchanged, and repeating
the same rejected call any number of times leaves the state unchanged. -/
theorem c7_rejected_transition (V : Type) (st : AState V) (now : Nat)
    (mid ev : String) (payload : Option (List (String × V))) (m : Machine V)
    (hinit : st.inited = true)
    (hm : alookup st.machines mid = some m)
    (habs : alookup ((alookup m.transitions m.state).getD []) ev = none) :
    transitionM st now mid ev payload
      = .ok (st, { success := false, srcState := m.state, dstState := m.state,
                   event := ev, context := none }) ∧
    ∀ k : Nat, transitionIter now mid ev payload k st = st := by
  have h1 : transitionM st now mid ev payload
      = .ok (st, { success := false, srcState := m.state, dstState := m.state,
                   event := ev, context := none }) := by
    simp only [transitionM, hinit, Bool.not_true, Bool.false_eq_true,
      if_false, ite_false, hm, habs]
  refine ⟨h1, ?_⟩
  intro k
  induction k with
  | zero => rfl
  | succ k ih =>
    simp only [transitionIter, transitionState, h1]
    exact ih

/-- C7 witness: the terminal machine `w7Machine` (state `"done"`, no outbound
rows) rejects `"go"` and is unchanged after three repetitions, obtained from
`c7_rejected_transition`. -/
theorem c7_rejected_transition_witness :
    transitionM w7AState 9 "m" "go" (some [("x", 2)])
      = .ok (w7AState,
          { success := false, srcState := w7Machine.state,
            dstState := w7Machine.state, event := "go", context := none }) ∧
    transitionIter 9 "m" "go" (some [("x", 2)]) 3 w7AState = w7AState := by
  have h := c7_rejected_transition Nat w7AState 9 "m" "go" (some [("x", 2)])
    w7Machine rfl rfl rfl
  exact ⟨h.1, h.2 3⟩

/-- C9: for an unregistered adapter type, `getAdapter` returns absent without
error while `connect`, `send` and `receive` each fail with the
`Adapter not found` error having invoked no adapter operation (in particular
`send` performs no network call); for a registered adapter, a failure of the
adapter's own operation is propagated to the caller unchanged, with exactly
one underlying invocation (no retry). -/
theorem c9_adapter_errors (V : Type) (st : AState V) (t : String) (d cfg : V)
    (hinit : st.inited = true) :
    (alookup st.adapters t = none →
      getAdapterA st t = .ok none ∧
      connectA st t cfg = (.error (.err ("Adapter not found: " ++ t)), []) ∧
      sendA st t d = (.error (.err ("Adapter not found: " ++ t)), []) ∧
      receiveA st t = (.error (.err ("Adapter not found: " ++ t)), [])) ∧
    (∀ (a : Adapter V) (e : JErr V), alookup st.adapters t = some a →
      (a.connectR cfg = .error e →
        connectA st t cfg = (.error e, [.connect t])) ∧
      (a.sendR d = .error e → sendA st t d = (.error e, [.send t])) ∧
      (a.receiveR () = .error e → receiveA st t = (.error e, [.recv t]))) := by
  constructor
  · intro hn
    refine ⟨?_, ?_, ?_, ?_⟩ <;>
      simp [getAdapterA, connectA, sendA, receiveA, hinit, hn]
  · intro a e hs
    refine ⟨?_, ?_, ?_⟩ <;> intro hfail <;>
      simp [connectA, sendA, receiveA, hinit, hs, hfail]

/-- C9 witness: with only `"w"` registered (an adapter whose operations throw
the raw value `7`), `getAdapter("x")` is absent, `send("x", ·)` fails with
`Adapter not found` and no operation call, and `send("w", ·)` propagates the
raw failure with exactly one `send` invocation — all obtained from
`c9_adapter_errors`. -/
theorem c9_adapter_errors_witness :
    getAdapterA w9AState "x" = .ok none ∧
    sendA w9AState "x" 0 = (.error (.err ("Adapter not found: " ++ "x")), []) ∧
    sendA w9AState "w" 0 = (.error (.raw 7), [.send "w"]) := by
  have h1 := c9_adapter_errors Nat w9AState "x" 0 0 rfl
  have h2 := c9_adapter_errors Nat w9AState "w" 0 0 rfl
  exact ⟨(h1.1 rfl).1, (h1.1 rfl).2.2.1, (h2.2 wAdapter (.raw 7) rfl).2.1 rfl⟩

/-! ## Claim theorems: IntegrationListener history reads -/

/-- C10: `getRecentEvents(limit)` with positive `limit` returns the last
`min limit length` events, most-recent-last (a suffix of the queue); with
`limit = 0` it returns the entire history, because `slice(-0)` is
`slice(0)`. -/
theorem c10_recent_events (V : Type) (st : LState V) (limit : Nat)
    (hinit : st.inited = true) :
    (0 < limit →
      getRecentEventsL st limit
          = .ok (st.eventQueue.drop (st.eventQueue.length - limit)) ∧
      (st.eventQueue.drop (st.eventQueue.length - limit)).length
          = min limit st.eventQueue.length ∧
      st.eventQueue.drop (st.eventQueue.length - limit) <:+ st.eventQueue) ∧
    getRecentEventsL st 0 = .ok st.eventQueue := by
  constructor
  · intro hpos
    refine ⟨?_, ?_, List.drop_suffix _ _⟩
    · simp only [getRecentEventsL, hinit, Bool.not_true, Bool.false_eq_true,
        if_false, ite_false, jsSlice]
      rw [if_pos (by omega : -(limit : Int) < 0)]
      have harith : ((st.eventQueue.length : Int) + -(limit : Int)).toNat
          = st.eventQueue.length - limit := by omega
      rw [harith]
    · rw [List.length_drop]
      omega
  · simp [getRecentEventsL, hinit, jsSlice]

/-- C10 witness: on a three-event history, `getRecentEvents 2` returns the
last two events and `getRecentEvents 0` the whole history, obtained from
`c10_recent_events`. -/
theorem c10_recent_events_witness :
    getRecentEventsL wQState 2
        = .ok (wQState.eventQueue.drop (wQState.eventQueue.length - 2)) ∧
    getRecentEventsL wQState 0 = .ok wQState.eventQueue := by
  have h := c10_recent_events Unit wQState 2 rfl
  exact ⟨(h.1 (by decide)).1, h.2⟩

/-! ## Shared shape of a completed emission -/

theorem emitFuel_ok_top {V : Type} (fuel : Nat) (st : LState V)
    (etype : String) (data : V) (st' : LState V) (n : Nat)
    (top all : List (Subscription V × Bool))
    (h : emitFuel fuel st etype data = .ok (st', n, top, all)) :
    top.map Prod.fst
        = List.insertionSort subGE (lookupSubs st.listeners etype) ∧
    n = top.countP (fun en => en.2) := by
  cases fuel with
  | zero => simp [emitFuel] at h
  | succ fuel =>
    simp only [emitFuel] at h
    split at h
    · simp at h
    · split at h
      · rename_i hfind
        simp only [Except.ok.injEq, Prod.mk.injEq] at h
        obtain ⟨rfl, rfl, rfl, rfl⟩ := h
        rw [lookupSubs_of_find?_none st.listeners etype hfind]
        simp
      · rename_i kv hfind
        split at h
        · rename_i hempty
          simp only [Except.ok.injEq, Prod.mk.injEq] at h
          obtain ⟨rfl, rfl, rfl, rfl⟩ := h
          have hkv : kv.2 = [] := by
            simpa [List.isEmpty_iff] using hempty
          rw [lookupSubs_of_find? st.listeners etype kv hfind, hkv]
          simp
        · split at h
          · simp at h
          · rename_i st2 n2 top2 all2 rem2 hloop
            simp only [Except.ok.injEq, Prod.mk.injEq] at h
            obtain ⟨rfl, rfl, rfl, rfl⟩ := h
            obtain ⟨hm, hc, _⟩ := runLoopGiven_spec _ _ _ _ _ _ _ _ hloop
            rw [lookupSubs_of_find? st.listeners etype kv hfind]
            exact ⟨hm, hc⟩

/-! ## Claim theorems: IntegrationListener dispatch -/

/-- C1: in every completed emission, the handlers invoked (the top-level
trace) are exactly the stable descending-priority sort of the registration
sequence for that event type: the invocation order is pairwise
non-increasing in priority, equal-priority subscriptions keep their
registration order (the filter at each priority level is unchanged), and
every registered subscription is invoked exactly once. -/
theorem c1_priority_order (V : Type) (fuel : Nat) (st : LState V)
    (etype : String) (data : V) (st' : LState V) (n : Nat)
    (top all : List (Subscription V × Bool))
    (h : emitFuel fuel st etype data = .ok (st', n, top, all)) :
    top.map Prod.fst
        = List.insertionSort subGE (lookupSubs st.listeners etype) ∧
    List.Pairwise subGE (top.map Prod.fst) ∧
    (∀ p : Int, (top.map Prod.fst).filter (fun s => s.priority == p)
        = (lookupSubs st.listeners etype).filter (fun s => s.priority == p)) ∧
    (top.map Prod.fst).Perm (lookupSubs st.listeners etype) := by
  obtain ⟨hmain, _⟩ := emitFuel_ok_top fuel st etype data st' n top all h
  refine ⟨hmain, ?_, ?_, ?_⟩
  · rw [hmain]
    exact List.sorted_insertionSort subGE _
  · intro p
    rw [hmain]
    exact filter_insertionSort p _
  · rw [hmain]
    exact List.perm_insertionSort subGE _

/-- C1 witness: emitting on `demoListener` (priorities 5, 0, 0) invokes
`w3, w1, w2` in that order — non-increasing priorities, and the priority-0
pair keeps registration order — obtained from `c1_priority_order`. -/
theorem c1_priority_order_witness :
    List.Pairwise subGE ([(w3, true), (w1, false), (w2, true)].map Prod.fst) ∧
    ([(w3, true), (w1, false), (w2, true)].map Prod.fst).filter
        (fun s => s.priority == 0)
      = (lookupSubs demoListener.listeners "e").filter
          (fun s => s.priority == 0) := by
  have h := c1_priority_order Unit 2 demoListener "e" ()
    { demoListener with
        eventQueue := [{ id := 0, etype := "e", data := (), timestamp := 0 }],
        nextEventId := 1 }
    2 [(w3, true), (w1, false), (w2, true)]
    [(w3, true), (w1, false), (w2, true)] (by rfl)
  exact ⟨h.2.1, h.2.2.1 0⟩

/-- C3: when some handler of a completed emission throws, every remaining
handler is still invoked in order (the top-level trace covers the full sorted
snapshot), and `emit` returns the number of handlers that completed without
throwing, not the total number of subscriptions; the handler error does not
propagate (the emission still returns a result). -/
theorem c3_failure_isolation (V : Type) (fuel : Nat) (st : LState V)
    (etype : String) (data : V) (st' : LState V) (n : Nat)
    (top all : List (Subscription V × Bool))
    (h : emitFuel fuel st etype data = .ok (st', n, top, all))
    (_hthrow : ∃ en ∈ top, en.2 = false) :
    top.map Prod.fst
        = List.insertionSort subGE (lookupSubs st.listeners etype) ∧
    n = top.countP (fun en => en.2) := by
  exact emitFuel_ok_top fuel st etype data st' n top all h

/-- C3 witness: on `demoListener`, handler `w1` throws, yet `w2` (lower in
the order) still runs and `emit` returns 2 of 3 — obtained from
`c3_failure_isolation`. -/
theorem c3_failure_isolation_witness :
    ([(w3, true), (w1, false), (w2, true)].map Prod.fst
        = List.insertionSort subGE (lookupSubs demoListener.listeners "e")) ∧
    (2 : Nat) = [(w3, true), (w1, false), (w2, true)].countP (fun en => en.2) := by
  have h := c3_failure_isolation Unit 2 demoListener "e" ()
    { demoListener with
        eventQueue := [{ id := 0, etype := "e", data := (), timestamp := 0 }],
        nextEventId := 1 }
    2 [(w3, true), (w1, false), (w2, true)]
    [(w3, true), (w1, false), (w2, true)] (by rfl)
    ⟨(w1, false), by decide, rfl⟩
  exact h

/-- C2 counterexample: `c2ReState` holds a single `once` subscription (id 1)
whose handler re-enters `emit "e"` on its first invocation; one top-level
`emit` then invokes that handler twice (the chronological invocation trace
counts id 1 twice), because the code deletes `once` listeners only after its
dispatch loop finishes, so the re-entered emission still sees the
subscription.  This refutes the claim that a `once` handler is invoked at
most once even when `emit` is re-entered from within its own handler. -/
theorem c2_counterexample :
    (lookupSubs c2ReState.listeners "e").all (fun s => s.once) = true ∧
    (emitFuel 5 c2ReState "e" ()).map
        (fun r => r.2.2.2.countP (fun en => en.1.id == 1)) = .ok 2 :=
  ⟨rfl, rfl⟩

/-- C2 (amended): a `once` subscription is deleted only after the dispatch
loop of the emission that fires it, and only when its handler completed
without throwing.  Consequently the at-most-once guarantee holds in the
non-re-entrant case: if every registered handler performs no nested `emit`,
and every subscription carrying id `i` is a `once` subscription whose handler
never throws, and at most one live subscription carries id `i`, then across
any sequence of top-level `emit` calls the id-`i` handler is invoked at most
once.  (Re-entrant emissions, or a throwing `once` handler, can invoke it
again — see the counterexample.) -/
theorem c2_once_amended (V : Type) (fuel : Nat) (st : LState V)
    (calls : List (String × V)) (st' : LState V)
    (tr : List (Subscription V × Bool)) (i : Nat)
    (hA : AllNoEmit st = true) (hO : OnceOkAt i st = true)
    (hcnt : countLive i st ≤ 1)
    (h : emitSeq fuel st calls = .ok (st', tr)) :
    tr.countP (fun en => en.1.id == i) ≤ 1 := by
  have hle := emitSeq_once_count fuel calls st st' tr i hA hO h
  omega

/-- C2 witness: a single well-behaved `once` subscription on `"e"` fires in
the first of two emissions and never again, obtained from
`c2_once_amended`. -/
theorem c2_once_amended_witness :
    ([(wOnceSub, true)] : List (Subscription Unit × Bool)).countP
        (fun en => en.1.id == 1) ≤ 1 := by
  exact c2_once_amended Unit 3 wOnceState [("e", ()), ("e", ())]
    { inited := true, listeners := [("e", [])],
      eventQueue :=
        [{ id := 0, etype := "e", data := (), timestamp := 0 },
         { id := 1, etype := "e", data := (), timestamp := 0 }],
      maxQueueSize := 1000, nextListenerId := 2, nextEventId := 2, now := 0 }
    [(wOnceSub, true)] 1 (by rfl) (by rfl) (by decide) (by rfl)

/-- C4: the history queue respects its capacity: the constructor configures
capacity 1000; a completed emission preserves the invariant
`length ≤ maxQueueSize` (and never changes the capacity); and a sequence of
insertions into an empty queue leaves exactly the last `cap` events, in
insertion order — after exceeding capacity by `k` insertions the oldest `k`
events are gone (`drop (length - cap)`). -/
theorem c4_history_capacity (V : Type) :
    (∀ now : Nat, (newListener V now).maxQueueSize = 1000) ∧
    (∀ (fuel : Nat) (st : LState V) (etype : String) (data : V)
        (st' : LState V) (n : Nat) (top all : List (Subscription V × Bool)),
      emitFuel fuel st etype data = .ok (st', n, top, all) →
      st.eventQueue.length ≤ st.maxQueueSize →
      st'.eventQueue.length ≤ st'.maxQueueSize ∧
        st'.maxQueueSize = st.maxQueueSize) ∧
    (∀ (cap : Nat) (es : List (Event V)),
      es.foldl (addToQueue cap) [] = es.drop (es.length - cap)) := by
  refine ⟨fun _ => rfl, ?_, ?_⟩
  · intro fuel st etype data st' n top all h hlen
    obtain ⟨hin, hmax, hq, hsub⟩ := stepOK_emitFuel fuel st etype data _ h
    exact ⟨hq hlen, hmax⟩
  · intro cap es
    have h := foldl_addToQueue cap es [] (by simp)
    simpa using h

/-- C4 witness: one emission on `demoListener` keeps the queue (length 1)
within the capacity 1000 and leaves the capacity unchanged, obtained from
`c4_history_capacity`. -/
theorem c4_history_capacity_witness :
    ({ demoListener with
        eventQueue := [{ id := 0, etype := "e", data := (), timestamp := 0 }],
        nextEventId := 1 } : LState Unit).eventQueue.length
      ≤ ({ demoListener with
            eventQueue :=
              [{ id := 0, etype := "e", data := (), timestamp := 0 }],
            nextEventId := 1 } : LState Unit).maxQueueSize ∧
    ({ demoListener with
        eventQueue := [{ id := 0, etype := "e", data := (), timestamp := 0 }],
        nextEventId := 1 } : LState Unit).maxQueueSize
      = demoListener.maxQueueSize := by
  exact (c4_history_capacity Unit).2.1 2 demoListener "e" ()
    { demoListener with
        eventQueue := [{ id := 0, etype := "e", data := (), timestamp := 0 }],
        nextEventId := 1 }
    2 [(w3, true), (w1, false), (w2, true)]
    [(w3, true), (w1, false), (w2, true)] (by rfl) (by decide)

/-- C5: on an initialized listener, emitting an event type with zero
registered subscriptions returns 0, does not fail, and still appends the
newly built event record to the history queue. -/
theorem c5_emit_no_subscriptions (V : Type) (fuel : Nat) (st : LState V)
    (etype : String) (data : V)
    (hinit : st.inited = true)
    (hempty : lookupSubs st.listeners etype = []) :
    emitFuel (fuel + 1) st etype data
      = .ok ({ st with
                 eventQueue := addToQueue st.maxQueueSize st.eventQueue
                   (mkEvent st etype data),
                 nextEventId := st.nextEventId + 1 }, 0, [], []) := by
  simp only [emitFuel, hinit, Bool.not_true, Bool.false_eq_true, if_false,
    ite_false]
  cases hfind : st.listeners.find? (fun kv => kv.1 == etype) with
  | none => simp [hfind]
  | some kv =>
    have hkv : kv.2 = [] := by
      rw [lookupSubs_of_find? st.listeners etype kv hfind] at hempty
      exact hempty
    simp [hfind, hkv]

/-- C5 witness: emitting `"x"` on a freshly initialized listener with no
subscriptions, obtained from `c5_emit_no_subscriptions`. -/
theorem c5_emit_no_subscriptions_witness :
    emitFuel 1 (initListener (newListener Unit 0)) "x" ()
      = .ok ({ initListener (newListener Unit 0) with
                 eventQueue :=
                   addToQueue (initListener (newListener Unit 0)).maxQueueSize
                     (initListener (newListener Unit 0)).eventQueue
                     (mkEvent (initListener (newListener Unit 0)) "x" ()),
                 nextEventId :=
                   (initListener (newListener Unit 0)).nextEventId + 1 },
             0, [], []) := by
  exact c5_emit_no_subscriptions Unit 0 (initListener (newListener Unit 0))
    "x" () rfl rfl

/-- C8 counterexample: `on("e", handler)` then `off("e", id)` leaves zero
live subscriptions for `"e"`, yet `getEventTypes()` still returns `["e"]`,
because `off` deletes only the inner map entry and never removes the (now
empty) event-type bucket.  This refutes the claim that `getEventTypes()`
contains exactly the types with at least one live subscription. -/
theorem c8_counterexample :
    (do
      let r1 ← onL (initListener (newListener Unit 0)) "e" (HProg.ret true)
        false 0
      let r2 ← offL r1.1 "e" r1.2
      let tys ← getEventTypesL r2.1
      let c ← listenerCountL r2.1 "e"
      pure (tys, c) : Except (JErr Unit) (List String × Nat))
      = .ok (["e"], 0) := rfl

/-- C8 (amended): `getEventTypes()` returns exactly the keys of the registry:
it contains every event type with at least one live subscription, but `off`
never removes a type's bucket, so a type whose subscriptions have all been
removed via `off` remains listed (until `removeAllListeners`). -/
theorem c8_event_types_amended (V : Type) :
    (∀ (st : LState V) (tys : List String) (etype : String),
      getEventTypesL st = .ok tys →
      lookupSubs st.listeners etype ≠ [] → etype ∈ tys) ∧
    (∀ (st : LState V) (etype : String) (lid : Nat) (st' : LState V) (b : Bool),
      offL st etype lid = .ok (st', b) →
      st'.listeners.map Prod.fst = st.listeners.map Prod.fst) := by
  constructor
  · intro st tys etype hst hne
    revert hst
    simp only [getEventTypesL]
    split
    · intro hcon
      simp at hcon
    · intro hok
      have htys : tys = st.listeners.map Prod.fst := by
        simpa using hok.symm
      subst htys
      cases hfind : st.listeners.find? (fun kv => kv.1 == etype) with
      | none =>
        rw [lookupSubs_of_find?_none st.listeners etype hfind] at hne
        exact absurd rfl hne
      | some kv =>
        have hkvmem : kv ∈ st.listeners := List.mem_of_find?_eq_some hfind
        have hkey : kv.1 = etype := by
          simpa using List.find?_some hfind
        exact List.mem_map.mpr ⟨kv, hkvmem, hkey⟩
  · intro st etype lid st' b h
    revert h
    simp only [offL]
    split
    · intro hcon
      simp at hcon
    · split
      · intro hok
        simp only [Except.ok.injEq, Prod.mk.injEq] at hok
        obtain ⟨rfl, rfl⟩ := hok
        rfl
      · rename_i kv hfind
        intro hok
        simp only [Except.ok.injEq, Prod.mk.injEq] at hok
        obtain ⟨hst', hb⟩ := hok
        rw [← hst']
        exact map_fst_filterModify st.listeners etype _

/-- C8 witness: after `on` the type `"e"` (one live subscription) is listed,
and the subsequent `off` leaves the listed keys unchanged — obtained from
`c8_event_types_amended`. -/
theorem c8_event_types_amended_witness :
    "e" ∈ (["e"] : List String) ∧
    c8OffState.listeners.map Prod.fst = c8OnState.listeners.map Prod.fst := by
  have h := c8_event_types_amended Unit
  exact ⟨h.1 c8OnState ["e"] "e" (by rfl) (by decide),
         h.2 c8OnState "e" 0 c8OffState true (by rfl)⟩

end Pewpi
